import Mathlib

/-!
Shallow embedding of the online contract-clustering engine in
src/contract_analysis.py (classes Contract, ContractFamily,
ContractAnalysis and the module-level ingestion loop).

Modelling conventions, stated once here:

* Python strings are Lean String; similarity scores (Python floats in
  [0, 100]) are Rat, so comparisons are exact.
* uuid.uuid4() is modelled by a fresh-id counter nextId carried in the
  engine state; claims that depend on id freshness state it as an
  explicit hypothesis.
* Python dicts are association lists (List (k, v)) with the dict update
  semantics: assignment to an existing key updates it in place, a new
  key is appended (insertion order preserved, as in CPython).
* defaultdict graph access self.graph[a][b] = v is graphSet below: the
  outer entry is created (empty) on first touch, then the inner entry
  is written.
* Python sets (family.names) are lists kept duplicate-free by
  setInsert; set(iterable) is setOfList.
* The similarity oracle ContractFamily.code_similarity delegates to the
  external copydetect package, so it is a parameter
  (score : Code -> Code -> Rat) of every function that compares codes;
  a fallible oracle (one whose comparison can raise) is a parameter
  returning Except String Rat.
* File-system effects are carried in the state: stateFile models the
  pickle checkpoint file, exports models the successive contents
  written to the JSON export file, saveAttempts counts calls that
  reached the body of save_state.  time.time() at each call is passed
  in as a Nat argument.
-/

abbrev Address := String
abbrev Code := String
abbrev FamId := Nat
abbrev Score := Rat

/-- class Contract (src/contract_analysis.py lines 10-29). -/
structure Contract where
  address : Address
  code : Code
  name : String
deriving DecidableEq

/-- Python set.add on the list model of a set. -/
def setInsert (s : List String) (x : String) : List String :=
  if x ∈ s then s else s ++ [x]

/-- Python set(iterable) on the list model of a set. -/
def setOfList (l : List String) : List String :=
  l.foldl setInsert []

/-- class ContractFamily (lines 31-37): id, representative code, count,
addresses (ordered), names (a set, modelled as a duplicate-free list). -/
structure ContractFamily where
  id : FamId
  code : Code
  count : Nat
  addresses : List Address
  names : List String
deriving DecidableEq

/-- ContractFamily.__init__ (lines 32-37); the uuid4 id is supplied by
the caller from the fresh-id counter. -/
def ContractFamily.init (fresh : FamId) (c : Contract) : ContractFamily :=
  { id := fresh, code := c.code, count := 1,
    addresses := [c.address], names := [c.name] }

/-- ContractFamily.add_contract (lines 39-42). -/
def ContractFamily.add_contract (f : ContractFamily) (c : Contract) : ContractFamily :=
  { f with count := f.count + 1,
           addresses := f.addresses ++ [c.address],
           names := setInsert f.names c.name }

/-- ContractFamily.is_similar (lines 117-120): returns the similarity
and the conclusion similarity >= threshold (inclusive). -/
def ContractFamily.is_similar (score : Code → Code → Score)
    (f : ContractFamily) (c : Contract) (threshold : Score := 100) : Score × Bool :=
  (score f.code c.code, decide (threshold ≤ score f.code c.code))

/-- The dict produced by ContractFamily.to_dict (lines 44-51). -/
structure FamilyDict where
  id : FamId
  code : Code
  count : Nat
  addresses : List Address
  names : List String
deriving DecidableEq

/-- ContractFamily.to_dict (lines 44-51); list(self.names) is the
identity on the list model of the set. -/
def ContractFamily.to_dict (f : ContractFamily) : FamilyDict :=
  { id := f.id, code := f.code, count := f.count,
    addresses := f.addresses, names := f.names }

/-- ContractFamily.from_dict (lines 53-69).  It reads
data['addresses'][0] and data['names'][0] to build the dummy contract,
so it is undefined (none) when either list is empty.  The uuid made by
the dummy construction is dead: the source immediately overwrites id,
count, addresses and names with the stored values (the stored dict
always carries an id, since to_dict always writes one). -/
def ContractFamily.from_dict (d : FamilyDict) : Option ContractFamily :=
  match d.addresses, d.names with
  | a0 :: _, n0 :: _ =>
    let dummy : Contract := { address := a0, code := d.code, name := n0 }
    let fam0 := ContractFamily.init d.id dummy
    some { fam0 with id := d.id, count := d.count,
                     addresses := d.addresses, names := setOfList d.names }
  | _, _ => none

/-- Association list find, the read side of a Python dict. -/
def alFind {A : Type} (m : List (FamId × A)) (k : FamId) : Option A :=
  match m with
  | [] => none
  | (k2, v) :: rest => if k2 = k then some v else alFind rest k

/-- Association list write, the Python dict assignment d[k] = v: update
an existing key in place, append a new one. -/
def alUpdate {A : Type} (m : List (FamId × A)) (k : FamId) (v : A) : List (FamId × A) :=
  match m with
  | [] => [(k, v)]
  | (k2, v2) :: rest => if k2 = k then (k, v) :: rest else (k2, v2) :: alUpdate rest k v

/-- self.graph: defaultdict(familyId -> defaultdict(familyId -> float)). -/
abbrev Graph := List (FamId × List (FamId × Score))

/-- self.graph[a][b] = v (defaultdict: touching a missing outer key
creates an empty inner dict first). -/
def graphSet (g : Graph) (a b : FamId) (v : Score) : Graph :=
  alUpdate g a (alUpdate ((alFind g a).getD []) b v)

/-- Read self.graph[a][b] as a partial lookup: some v when the edge has
been written, none otherwise (the defaultdict would materialise 0.0). -/
def graphGet (g : Graph) (a b : FamId) : Option Score :=
  (alFind g a).bind (fun inner => alFind inner b)

/-- The dict pickled by save_state (lines 212-219): families in creation
order, the rebuilt id index, and the graph (timestamp omitted). -/
structure Checkpoint where
  families : List ContractFamily
  family_map : List (FamId × ContractFamily)
  graph : Graph
deriving DecidableEq

/-- The JSON object written by export_data (lines 262-270), minus the
timestamp. -/
structure ExportData where
  families : List FamilyDict
  graph : Graph
  total_families : Nat
  total_contracts : Nat
deriving DecidableEq

/-- Engine state: the fields of ContractAnalysis.__init__ (lines
128-136) plus the modelling fields listed in the header (nextId for
uuid4, stateFile for the pickle file, exports for the export file,
saveAttempts counting save_state bodies entered). -/
structure Sys where
  families : List ContractFamily
  family_map : List (FamId × ContractFamily)
  graph : Graph
  last_save_time : Nat
  nextId : FamId
  stateFile : Option Checkpoint
  exports : List ExportData
  saveAttempts : Nat
deriving DecidableEq

/-- self.save_interval = 300 (line 135). -/
def save_interval : Nat := 300

/-- ContractAnalysis.__init__ (lines 128-136): empty engine;
last_save_time is the boot time t0. -/
def initSys (t0 : Nat) : Sys :=
  { families := [], family_map := [], graph := [], last_save_time := t0,
    nextId := 0, stateFile := none, exports := [], saveAttempts := 0 }

/-- self.ETH (line 123). -/
def ETH : Address := "0x4200000000000000000000000000000000000006"

/-- One queue event; only token0 / token1 are consumed by the core. -/
structure Event where
  token0 : Address
  token1 : Address
deriving DecidableEq

/-- ContractAnalysis.find_weth_token (lines 143-152). -/
def find_weth_token (ev : Event) : Option Address :=
  if ev.token0 = ETH then some ev.token1
  else if ev.token1 = ETH then some ev.token0
  else none

/-- {f.id: f for f in families}: the dict comprehension used by
save_state (line 205) and load_state (line 236). -/
def buildFamilyMap (fams : List ContractFamily) : List (FamId × ContractFamily) :=
  fams.foldl (fun m f => alUpdate m f.id f) []

/-- ContractAnalysis.save_state (lines 201-222).  The id index is
rebuilt first (line 205, outside any failure point); the pickle.dump
may fail, modelled by the ok flag: on failure the exception is caught
and the file is not replaced. -/
def save_state (ok : Bool) (s : Sys) : Sys :=
  let fm := buildFamilyMap s.families
  let s1 := { s with family_map := fm, saveAttempts := s.saveAttempts + 1 }
  if ok then
    { s1 with stateFile := some { families := s1.families, family_map := fm, graph := s1.graph } }
  else s1

/-- ContractAnalysis.check_save_state (lines 194-199): if the interval
has elapsed, call save_state and then set last_save_time to the current
time - unconditionally, whether or not the save succeeded, since
save_state swallows its own exceptions. -/
def check_save_state (now : Nat) (ok : Bool) (s : Sys) : Sys :=
  if save_interval < now - s.last_save_time then
    { save_state ok s with last_save_time := now }
  else s

/-- ContractAnalysis.export_data (lines 252-275): append the current
snapshot to the export file history; exceptions are swallowed (ok
models whether the write succeeds). -/
def export_of (s : Sys) : ExportData :=
  { families := s.families.map ContractFamily.to_dict,
    graph := s.graph,
    total_families := s.families.length,
    total_contracts := (s.families.map (fun f => f.count)).sum }

def export_data (ok : Bool) (s : Sys) : Sys :=
  if ok then { s with exports := s.exports ++ [export_of s] } else s

/-- Result of the comparison loop in handle_event (lines 169-176):
either the first matching family absorbed the contract (the updated
family list is returned), or no family matched and the observations
list (family id, similarity), in iteration order, is returned. -/
inductive ScanResult where
  | matched (fams : List ContractFamily)
  | unmatched (obs : List (FamId × Score))
deriving DecidableEq

/-- The for-loop of handle_event (lines 169-176): walk the families in
creation order, stop at the first is_similar conclusion, otherwise
record the observation.  The observations dict is modelled as a list;
its keys are family ids, distinct whenever the family ids are. -/
def matchFamilies (score : Code → Code → Score) (c : Contract) :
    List ContractFamily → ScanResult
  | [] => ScanResult.unmatched []
  | f :: rest =>
    match ContractFamily.is_similar score f c with
    | (sim, conclusion) =>
      if conclusion then ScanResult.matched (f.add_contract c :: rest)
      else
        match matchFamilies score c rest with
        | ScanResult.matched fams2 => ScanResult.matched (f :: fams2)
        | ScanResult.unmatched obs => ScanResult.unmatched ((f.id, sim) :: obs)

/-- Lines 184-186: for each observation write the bidirectional edge
(new family id, old id, similarity). -/
def writeEdges (gid : FamId) (obs : List (FamId × Score)) (g : Graph) : Graph :=
  obs.foldl (fun g2 p => graphSet (graphSet g2 gid p.1 p.2) p.1 gid p.2) g

/-- ContractAnalysis.handle_event (lines 154-192).  The scanner (self.
scanner.get_contract_source_code_and_name) and the similarity oracle
are parameters; now / saveOk / expOk carry the wall clock and the
success of the two file writes for this call. -/
def handle_event (scanner : Address → Code × String) (score : Code → Code → Score)
    (now : Nat) (saveOk expOk : Bool) (s : Sys) (ev : Event) : Sys :=
  match find_weth_token ev with
  | none => s
  | some address =>
    let cn := scanner address
    if cn.1.length = 0 then s
    else
      let contract : Contract := { address := address, code := cn.1, name := cn.2 }
      match matchFamilies score contract s.families with
      | ScanResult.matched fams =>
        check_save_state now saveOk { s with families := fams }
      | ScanResult.unmatched obs =>
        let G := ContractFamily.init s.nextId contract
        let s1 := { s with families := s.families ++ [G],
                           family_map := alUpdate s.family_map G.id G,
                           nextId := s.nextId + 1 }
        let s2 := { s1 with graph := writeEdges G.id obs s1.graph }
        export_data expOk (check_save_state now saveOk s2)

/-- ContractAnalysis.load_state (lines 224-250), applied to a given
checkpoint: replace families, take the stored id index or rebuild it
when the stored one is empty, and merge the stored graph into the
current (defaultdict) graph entry by entry. -/
def load_state (s : Sys) (cp : Checkpoint) : Sys :=
  let fm := if cp.family_map.isEmpty then buildFamilyMap cp.families else cp.family_map
  let g := cp.graph.foldl
    (fun acc p => p.2.foldl (fun acc2 q => graphSet acc2 p.1 q.1 q.2) acc) s.graph
  { s with families := cp.families, family_map := fm, graph := g }

/-- The comparison loop with a fallible oracle: code_similarity may
raise (I/O, tooling), and the exception propagates out of the loop
before any mutation (is_similar inlined, conclusion = threshold <=
similarity as in lines 117-120). -/
def matchFamiliesE (scoreE : Code → Code → Except String Score) (c : Contract) :
    List ContractFamily → Except String ScanResult
  | [] => Except.ok (ScanResult.unmatched [])
  | f :: rest =>
    match scoreE f.code c.code with
    | Except.error e => Except.error e
    | Except.ok sim =>
      if (100 : Score) ≤ sim then Except.ok (ScanResult.matched (f.add_contract c :: rest))
      else
        match matchFamiliesE scoreE c rest with
        | Except.error e => Except.error e
        | Except.ok (ScanResult.matched fams2) => Except.ok (ScanResult.matched (f :: fams2))
        | Except.ok (ScanResult.unmatched obs) => Except.ok (ScanResult.unmatched ((f.id, sim) :: obs))

/-- handle_event with a fallible oracle.  The returned pair is (engine
state as the call leaves it, propagated error if any): an exception
raised by a comparison escapes handle_event at the point it occurs,
with whatever state the engine holds at that point. -/
def handle_eventE (scanner : Address → Code × String)
    (scoreE : Code → Code → Except String Score)
    (now : Nat) (saveOk expOk : Bool) (s : Sys) (ev : Event) : Sys × Option String :=
  match find_weth_token ev with
  | none => (s, none)
  | some address =>
    let cn := scanner address
    if cn.1.length = 0 then (s, none)
    else
      let contract : Contract := { address := address, code := cn.1, name := cn.2 }
      match matchFamiliesE scoreE contract s.families with
      | Except.error e => (s, some e)
      | Except.ok (ScanResult.matched fams) =>
        (check_save_state now saveOk { s with families := fams }, none)
      | Except.ok (ScanResult.unmatched obs) =>
        let G := ContractFamily.init s.nextId contract
        let s1 := { s with families := s.families ++ [G],
                           family_map := alUpdate s.family_map G.id G,
                           nextId := s.nextId + 1 }
        let s2 := { s1 with graph := writeEdges G.id obs s1.graph }
        (export_data expOk (check_save_state now saveOk s2), none)

/-- One iteration of the ingestion loop main (lines 279-292): the event
plus the per-call environment. -/
structure Step where
  ev : Event
  now : Nat
  saveOk : Bool
  expOk : Bool

/-- A run of the ingestion loop from a fresh engine. -/
def run (scanner : Address → Code × String) (score : Code → Code → Score)
    (t0 : Nat) (steps : List Step) : Sys :=
  steps.foldl (fun s st => handle_event scanner score st.now st.saveOk st.expOk s st.ev)
    (initSys t0)

/-- States reachable across the process lifecycle: boot with an empty
engine, ingest events, save on shutdown, or restart (a fresh engine
constructed as in main, with the persisted state file, then
load_state).  The restart constructor does not re-seed nextId, they
model uuid4 freshness only through explicit hypotheses; no claim below
depends on freshness across restarts. -/
inductive Reachable (scanner : Address → Code × String) (score : Code → Code → Score) :
    Sys → Prop where
  | boot : ∀ t0, Reachable scanner score (initSys t0)
  | step : ∀ s ev now saveOk expOk, Reachable scanner score s →
      Reachable scanner score (handle_event scanner score now saveOk expOk s ev)
  | shutdown : ∀ s ok, Reachable scanner score s → Reachable scanner score (save_state ok s)
  | restart : ∀ s cp t0, Reachable scanner score s → s.stateFile = some cp →
      Reachable scanner score (load_state { initSys t0 with stateFile := some cp } cp)

/-! ### Basic lemmas: strings, association lists, graph cells -/

theorem string_length_zero (s : String) : s.length = 0 ↔ s = "" := by
  constructor
  · intro h
    cases s with
    | mk data =>
      have hd : data = [] := by simpa [String.length] using h
      subst hd; rfl
  · intro h
    subst h; rfl

theorem alFind_update_self {A : Type} (m : List (FamId × A)) (k : FamId) (v : A) :
    alFind (alUpdate m k v) k = some v := by
  induction m with
  | nil => simp [alUpdate, alFind]
  | cons p rest ih =>
    obtain ⟨k2, v2⟩ := p
    by_cases h : k2 = k
    · simp [alUpdate, h, alFind]
    · simp [alUpdate, h, alFind, ih]

theorem alFind_update_ne {A : Type} (m : List (FamId × A)) (k : FamId) (v : A)
    (k2 : FamId) (h : k2 ≠ k) : alFind (alUpdate m k v) k2 = alFind m k2 := by
  induction m with
  | nil => simp [alUpdate, alFind, Ne.symm h]
  | cons p rest ih =>
    obtain ⟨k3, v3⟩ := p
    by_cases h3 : k3 = k
    · subst h3
      simp [alUpdate, alFind, Ne.symm h]
    · simp only [alUpdate, if_neg h3, alFind]
      by_cases h32 : k3 = k2
      · simp [h32]
      · simp [h32, ih]

theorem alUpdate_ne_nil {A : Type} (m : List (FamId × A)) (k : FamId) (v : A) :
    alUpdate m k v ≠ [] := by
  cases m with
  | nil => simp [alUpdate]
  | cons p rest =>
    obtain ⟨k2, v2⟩ := p
    by_cases h : k2 = k <;> simp [alUpdate, h]

theorem alFind_eq_none_iff {A : Type} (m : List (FamId × A)) (k : FamId) :
    alFind m k = none ↔ k ∉ m.map Prod.fst := by
  induction m with
  | nil => simp [alFind]
  | cons p rest ih =>
    obtain ⟨k2, v2⟩ := p
    by_cases h : k2 = k
    · subst h
      simp [alFind]
    · simp [alFind, h, ih, Ne.symm h]

theorem alFind_append_none {A : Type} (m1 m2 : List (FamId × A)) (k : FamId)
    (h : alFind m1 k = none) : alFind (m1 ++ m2) k = alFind m2 k := by
  induction m1 with
  | nil => rfl
  | cons p rest ih =>
    obtain ⟨k2, v2⟩ := p
    by_cases h2 : k2 = k
    · simp [alFind, h2] at h
    · simp [alFind, h2] at h ⊢
      exact ih h

theorem alUpdate_absent_append {A : Type} (m : List (FamId × A)) (k : FamId) (v : A)
    (h : alFind m k = none) : alUpdate m k v = m ++ [(k, v)] := by
  induction m with
  | nil => rfl
  | cons p rest ih =>
    obtain ⟨k2, v2⟩ := p
    by_cases h2 : k2 = k
    · simp [alFind, h2] at h
    · simp [alFind, h2] at h
      simp [alUpdate, h2, ih h]

theorem alUpdate_append_absent {A : Type} (m : List (FamId × A)) (k : FamId) (v0 v : A)
    (h : alFind m k = none) : alUpdate (m ++ [(k, v0)]) k v = m ++ [(k, v)] := by
  induction m with
  | nil => simp [alUpdate]
  | cons p rest ih =>
    obtain ⟨k2, v2⟩ := p
    by_cases h2 : k2 = k
    · simp [alFind, h2] at h
    · simp [alFind, h2] at h
      simp [alUpdate, h2, ih h]

theorem alUpdate_keys {A : Type} (m : List (FamId × A)) (k : FamId) (v : A) :
    (alUpdate m k v).map Prod.fst =
      if k ∈ m.map Prod.fst then m.map Prod.fst else m.map Prod.fst ++ [k] := by
  induction m with
  | nil => simp [alUpdate]
  | cons p rest ih =>
    obtain ⟨k2, v2⟩ := p
    by_cases h : k2 = k
    · subst h
      simp [alUpdate]
    · by_cases hk : k ∈ rest.map Prod.fst
      · simp [alUpdate, h, ih, hk, Ne.symm h]
      · simp [alUpdate, h, ih, hk, Ne.symm h]

theorem alUpdate_keys_nodup {A : Type} (m : List (FamId × A)) (k : FamId) (v : A)
    (h : (m.map Prod.fst).Nodup) : ((alUpdate m k v).map Prod.fst).Nodup := by
  rw [alUpdate_keys]
  by_cases hk : k ∈ m.map Prod.fst
  · simpa [hk] using h
  · simp [hk, List.nodup_append, h]

theorem mem_alUpdate {A : Type} (m : List (FamId × A)) (k : FamId) (v : A)
    (p : FamId × A) (hp : p ∈ alUpdate m k v) : p = (k, v) ∨ p ∈ m := by
  induction m with
  | nil => simpa [alUpdate] using hp
  | cons q rest ih =>
    obtain ⟨k2, v2⟩ := q
    by_cases h2 : k2 = k
    · subst h2
      simp only [alUpdate, if_pos rfl] at hp
      rcases List.mem_cons.mp hp with h | h
      · exact Or.inl h
      · exact Or.inr (List.mem_cons_of_mem _ h)
    · simp only [alUpdate, if_neg h2] at hp
      rcases List.mem_cons.mp hp with h | h
      · exact Or.inr (by rw [h]; exact List.mem_cons_self _ _)
      · rcases ih h with h3 | h3
        · exact Or.inl h3
        · exact Or.inr (List.mem_cons_of_mem _ h3)

theorem graphGet_set_self (g : Graph) (a b : FamId) (v : Score) :
    graphGet (graphSet g a b v) a b = some v := by
  unfold graphGet graphSet
  rw [alFind_update_self]
  simp [alFind_update_self]

theorem graphGet_set_ne (g : Graph) (a b : FamId) (v : Score) (x y : FamId)
    (h : ¬(x = a ∧ y = b)) : graphGet (graphSet g a b v) x y = graphGet g x y := by
  by_cases hx : x = a
  · subst hx
    have hy : y ≠ b := fun hyb => h ⟨rfl, hyb⟩
    unfold graphGet graphSet
    rw [alFind_update_self]
    cases hfa : alFind g x with
    | none => simp [alUpdate, alFind, Ne.symm hy]
    | some inner => simp [alFind_update_ne _ _ _ _ hy]
  · unfold graphGet graphSet
    rw [alFind_update_ne _ _ _ _ hx]

/-! ### The comparison loop: characterisation of both outcomes -/

theorem matchFamilies_eq_matched (score : Code → Code → Score) (c : Contract)
    (fpre : List ContractFamily) (F : ContractFamily) (fpost : List ContractFamily)
    (hpre : ∀ P ∈ fpre, ¬ (100 ≤ score P.code c.code))
    (hF : 100 ≤ score F.code c.code) :
    matchFamilies score c (fpre ++ F :: fpost) =
      ScanResult.matched (fpre ++ F.add_contract c :: fpost) := by
  induction fpre with
  | nil => simp [matchFamilies, ContractFamily.is_similar, hF]
  | cons P rest ih =>
    have hP : ¬ (100 ≤ score P.code c.code) := hpre P (List.mem_cons_self _ _)
    have ih2 := ih (fun Q hQ => hpre Q (List.mem_cons_of_mem _ hQ))
    simp [matchFamilies, ContractFamily.is_similar, hP, ih2]

theorem matchFamilies_eq_unmatched (score : Code → Code → Score) (c : Contract)
    (fams : List ContractFamily)
    (h : ∀ F ∈ fams, ¬ (100 ≤ score F.code c.code)) :
    matchFamilies score c fams =
      ScanResult.unmatched (fams.map (fun F => (F.id, score F.code c.code))) := by
  induction fams with
  | nil => simp [matchFamilies]
  | cons F rest ih =>
    have hF : ¬ (100 ≤ score F.code c.code) := h F (List.mem_cons_self _ _)
    have ih2 := ih (fun Q hQ => h Q (List.mem_cons_of_mem _ hQ))
    simp [matchFamilies, ContractFamily.is_similar, hF, ih2]

theorem matchFamilies_matched_inv (score : Code → Code → Score) (c : Contract) :
    ∀ (fams fams2 : List ContractFamily),
      matchFamilies score c fams = ScanResult.matched fams2 →
      ∃ fpre F fpost, fams = fpre ++ F :: fpost ∧
        (∀ P ∈ fpre, ¬ (100 ≤ score P.code c.code)) ∧
        (100 ≤ score F.code c.code) ∧
        fams2 = fpre ++ F.add_contract c :: fpost := by
  intro fams
  induction fams with
  | nil => intro fams2 h; simp [matchFamilies] at h
  | cons F rest ih =>
    intro fams2 h
    by_cases hF : 100 ≤ score F.code c.code
    · simp [matchFamilies, ContractFamily.is_similar, hF] at h
      exact ⟨[], F, rest, rfl, by simp, hF, by simp [h.symm]⟩
    · simp only [matchFamilies, ContractFamily.is_similar, decide_eq_true_eq] at h
      rw [if_neg hF] at h
      cases hrec : matchFamilies score c rest with
      | matched fams3 =>
        rw [hrec] at h
        obtain ⟨fpre, G, fpost, hsplit, hpre2, hG, hfams3⟩ := ih fams3 hrec
        refine ⟨F :: fpre, G, fpost, by simp [hsplit], ?_, hG, ?_⟩
        · intro P hP
          rcases List.mem_cons.mp hP with hP | hP
          · rw [hP]; exact hF
          · exact hpre2 P hP
        · simp at h
          rw [h.symm, hfams3]
          simp
      | unmatched obs =>
        rw [hrec] at h
        simp at h

theorem matchFamilies_unmatched_inv (score : Code → Code → Score) (c : Contract) :
    ∀ (fams : List ContractFamily) (obs : List (FamId × Score)),
      matchFamilies score c fams = ScanResult.unmatched obs →
      (∀ F ∈ fams, ¬ (100 ≤ score F.code c.code)) ∧
        obs = fams.map (fun F => (F.id, score F.code c.code)) := by
  intro fams
  induction fams with
  | nil =>
    intro obs h
    simp [matchFamilies] at h
    simp [h.symm]
  | cons F rest ih =>
    intro obs h
    by_cases hF : 100 ≤ score F.code c.code
    · simp [matchFamilies, ContractFamily.is_similar, hF] at h
    · simp only [matchFamilies, ContractFamily.is_similar, decide_eq_true_eq] at h
      rw [if_neg hF] at h
      cases hrec : matchFamilies score c rest with
      | matched fams3 => rw [hrec] at h; simp at h
      | unmatched obs2 =>
        rw [hrec] at h
        simp at h
        obtain ⟨hrest, hobs2⟩ := ih obs2 hrec
        constructor
        · intro P hP
          rcases List.mem_cons.mp hP with hP | hP
          · rw [hP]; exact hF
          · exact hrest P hP
        · simp [h.symm, hobs2]

/-! ### Frame lemmas: what save_state / check_save_state / export_data
do not touch -/

theorem save_state_families (ok : Bool) (s : Sys) :
    (save_state ok s).families = s.families := by
  unfold save_state
  split <;> rfl

theorem save_state_graph (ok : Bool) (s : Sys) :
    (save_state ok s).graph = s.graph := by
  unfold save_state
  split <;> rfl

theorem save_state_nextId (ok : Bool) (s : Sys) :
    (save_state ok s).nextId = s.nextId := by
  unfold save_state
  split <;> rfl

theorem save_state_exports (ok : Bool) (s : Sys) :
    (save_state ok s).exports = s.exports := by
  unfold save_state
  split <;> rfl

theorem save_state_last (ok : Bool) (s : Sys) :
    (save_state ok s).last_save_time = s.last_save_time := by
  unfold save_state
  split <;> rfl

theorem save_state_stateFile_true (s : Sys) :
    (save_state true s).stateFile =
      some { families := s.families, family_map := buildFamilyMap s.families,
             graph := s.graph } := by
  simp [save_state]

theorem save_state_stateFile_false (s : Sys) :
    (save_state false s).stateFile = s.stateFile := by
  simp [save_state]

theorem save_state_family_map (ok : Bool) (s : Sys) :
    (save_state ok s).family_map = buildFamilyMap s.families := by
  unfold save_state
  split <;> rfl

theorem save_state_attempts (ok : Bool) (s : Sys) :
    (save_state ok s).saveAttempts = s.saveAttempts + 1 := by
  unfold save_state
  split <;> rfl

theorem check_save_families (now : Nat) (ok : Bool) (s : Sys) :
    (check_save_state now ok s).families = s.families := by
  unfold check_save_state
  split
  · simp [save_state_families]
  · rfl

theorem check_save_graph (now : Nat) (ok : Bool) (s : Sys) :
    (check_save_state now ok s).graph = s.graph := by
  unfold check_save_state
  split
  · simp [save_state_graph]
  · rfl

theorem check_save_nextId (now : Nat) (ok : Bool) (s : Sys) :
    (check_save_state now ok s).nextId = s.nextId := by
  unfold check_save_state
  split
  · simp [save_state_nextId]
  · rfl

theorem check_save_exports (now : Nat) (ok : Bool) (s : Sys) :
    (check_save_state now ok s).exports = s.exports := by
  unfold check_save_state
  split
  · simp [save_state_exports]
  · rfl

theorem export_data_families (ok : Bool) (s : Sys) :
    (export_data ok s).families = s.families := by
  unfold export_data
  split <;> rfl

theorem export_data_graph (ok : Bool) (s : Sys) :
    (export_data ok s).graph = s.graph := by
  unfold export_data
  split <;> rfl

theorem export_data_nextId (ok : Bool) (s : Sys) :
    (export_data ok s).nextId = s.nextId := by
  unfold export_data
  split <;> rfl

theorem export_data_family_map (ok : Bool) (s : Sys) :
    (export_data ok s).family_map = s.family_map := by
  unfold export_data
  split <;> rfl

theorem export_data_stateFile (ok : Bool) (s : Sys) :
    (export_data ok s).stateFile = s.stateFile := by
  unfold export_data
  split <;> rfl

/-! ### Edge-writing at family birth -/

theorem writeEdges_preserve (gid x y : FamId) :
    ∀ (obs : List (FamId × Score)) (g : Graph),
      (∀ p ∈ obs, ¬(x = gid ∧ y = p.1) ∧ ¬(x = p.1 ∧ y = gid)) →
      graphGet (writeEdges gid obs g) x y = graphGet g x y := by
  intro obs
  induction obs with
  | nil => intro g _; rfl
  | cons q rest ih =>
    intro g h
    have hq := h q (List.mem_cons_self _ _)
    have hstep : writeEdges gid (q :: rest) g =
        writeEdges gid rest (graphSet (graphSet g gid q.1 q.2) q.1 gid q.2) := rfl
    rw [hstep, ih _ (fun p hp => h p (List.mem_cons_of_mem _ hp))]
    rw [graphGet_set_ne _ _ _ _ _ _ hq.2, graphGet_set_ne _ _ _ _ _ _ hq.1]

theorem writeEdges_lookup (gid : FamId) :
    ∀ (obs : List (FamId × Score)) (g : Graph),
      (obs.map Prod.fst).Nodup → gid ∉ obs.map Prod.fst →
      ∀ p ∈ obs, graphGet (writeEdges gid obs g) gid p.1 = some p.2 ∧
                 graphGet (writeEdges gid obs g) p.1 gid = some p.2 := by
  intro obs
  induction obs with
  | nil => intro g _ _ p hp; simp at hp
  | cons q rest ih =>
    intro g hnodup hgid p hp
    have hgq : gid ≠ q.1 := by
      intro h
      exact hgid (by simp [h])
    have hgrest : gid ∉ rest.map Prod.fst := by
      intro h
      exact hgid (List.mem_cons_of_mem _ h)
    have hqrest : q.1 ∉ rest.map Prod.fst := (List.nodup_cons.mp hnodup).1
    have hstep : writeEdges gid (q :: rest) g =
        writeEdges gid rest (graphSet (graphSet g gid q.1 q.2) q.1 gid q.2) := rfl
    rcases List.mem_cons.mp hp with hp | hp
    · subst hp
      constructor
      · rw [hstep, writeEdges_preserve gid gid p.1 rest _ ?side1]
        case side1 =>
          intro r hr
          constructor
          · rintro ⟨-, h2⟩
            exact hqrest (h2 ▸ List.mem_map_of_mem Prod.fst hr)
          · rintro ⟨h1, -⟩
            exact hgrest (h1 ▸ List.mem_map_of_mem Prod.fst hr)
        rw [graphGet_set_ne _ p.1 gid p.2 gid p.1 (fun hc => hgq hc.1)]
        exact graphGet_set_self _ _ _ _
      · rw [hstep, writeEdges_preserve gid p.1 gid rest _ ?side2]
        case side2 =>
          intro r hr
          constructor
          · rintro ⟨h1, -⟩
            exact hgq h1.symm
          · rintro ⟨h1, -⟩
            exact hqrest (h1 ▸ List.mem_map_of_mem Prod.fst hr)
        exact graphGet_set_self _ _ _ _
    · exact ih _ (List.nodup_cons.mp hnodup).2 hgrest p hp

/-! ### Reduction of handle_event in the two ingestion outcomes -/

/-- When the event resolves to an address with non-empty code and the
families split as a non-matching front, a matching family F, and an
arbitrary tail, handle_event reduces to the match branch: F absorbs
the contract and only the periodic checkpoint runs afterwards. -/
theorem handle_event_matched_eq
    (scanner : Address → Code × String) (score : Code → Code → Score)
    (now : Nat) (saveOk expOk : Bool) (s : Sys) (ev : Event)
    (a : Address) (code : Code) (name : String)
    (fpre : List ContractFamily) (F : ContractFamily) (fpost : List ContractFamily)
    (hek : find_weth_token ev = some a)
    (hscan : scanner a = (code, name))
    (hcode : code ≠ "")
    (hsplit : s.families = fpre ++ F :: fpost)
    (hpre : ∀ P ∈ fpre, ¬ (100 ≤ score P.code code))
    (hmatch : 100 ≤ score F.code code) :
    handle_event scanner score now saveOk expOk s ev =
      check_save_state now saveOk
        { s with families :=
            fpre ++ F.add_contract { address := a, code := code, name := name } :: fpost } := by
  have hlen : ¬ (code.length = 0) := fun h => hcode ((string_length_zero code).mp h)
  have hml := matchFamilies_eq_matched score { address := a, code := code, name := name }
    fpre F fpost hpre hmatch
  unfold handle_event
  rw [hek]
  simp only [hscan, hlen, if_false]
  rw [hsplit, hml]

/-- When the event resolves to an address with non-empty code and no
family matches, handle_event reduces to the birth branch: a new family
is appended, the id index extended, the edges written, then checkpoint
check and export. -/
theorem handle_event_unmatched_eq
    (scanner : Address → Code × String) (score : Code → Code → Score)
    (now : Nat) (saveOk expOk : Bool) (s : Sys) (ev : Event)
    (a : Address) (code : Code) (name : String)
    (hek : find_weth_token ev = some a)
    (hscan : scanner a = (code, name))
    (hcode : code ≠ "")
    (hnone : ∀ F ∈ s.families, ¬ (100 ≤ score F.code code)) :
    handle_event scanner score now saveOk expOk s ev =
      export_data expOk (check_save_state now saveOk
        { s with
            families := s.families ++
              [ContractFamily.init s.nextId { address := a, code := code, name := name }],
            family_map := alUpdate s.family_map s.nextId
              (ContractFamily.init s.nextId { address := a, code := code, name := name }),
            nextId := s.nextId + 1,
            graph := writeEdges s.nextId
              (s.families.map (fun P => (P.id, score P.code code))) s.graph }) := by
  have hlen : ¬ (code.length = 0) := fun h => hcode ((string_length_zero code).mp h)
  have hmf := matchFamilies_eq_unmatched score { address := a, code := code, name := name }
    s.families hnone
  unfold handle_event
  rw [hek]
  simp only [hscan, hlen, if_false]
  rw [hmf]
  rfl

/-! ### Claim C1 -/

/-- Claim C1: for an ingested record with non-empty code, the engine
walks the families in creation order and assigns the record to the
first family whose similarity score is at least the threshold
(inclusive boundary); that family gains one count, the address is
appended, the name inserted, the later families (fpost, unconstrained
here) are untouched, no new family is created (nextId and the family
list shape are preserved), no graph edges are written, and no export is
produced for this ingestion. -/
theorem C1_first_match_assignment
    (scanner : Address → Code × String) (score : Code → Code → Score)
    (now : Nat) (saveOk expOk : Bool) (s : Sys) (ev : Event)
    (a : Address) (code : Code) (name : String)
    (fpre : List ContractFamily) (F : ContractFamily) (fpost : List ContractFamily)
    (hek : find_weth_token ev = some a)
    (hscan : scanner a = (code, name))
    (hcode : code ≠ "")
    (hsplit : s.families = fpre ++ F :: fpost)
    (hpre : ∀ P ∈ fpre, ¬ (100 ≤ score P.code code))
    (hmatch : 100 ≤ score F.code code) :
    (handle_event scanner score now saveOk expOk s ev).families =
      fpre ++ { F with count := F.count + 1,
                       addresses := F.addresses ++ [a],
                       names := setInsert F.names name } :: fpost ∧
    (handle_event scanner score now saveOk expOk s ev).graph = s.graph ∧
    (handle_event scanner score now saveOk expOk s ev).nextId = s.nextId ∧
    (handle_event scanner score now saveOk expOk s ev).exports = s.exports := by
  rw [handle_event_matched_eq scanner score now saveOk expOk s ev a code name
    fpre F fpost hek hscan hcode hsplit hpre hmatch]
  refine ⟨?_, ?_, ?_, ?_⟩
  · rw [check_save_families]
    simp [ContractFamily.add_contract]
  · rw [check_save_graph]
  · rw [check_save_nextId]
  · rw [check_save_exports]

/-- Concrete input for the C1 witness: two families; the record scores
50 against the first and exactly 100 (the threshold boundary) against
the second, so the second absorbs it. -/
def demo1Sys : Sys :=
  { families := [{ id := 5, code := "A", count := 1, addresses := ["0xa"], names := ["NA"] },
                 { id := 6, code := "B", count := 1, addresses := ["0xb"], names := ["NB"] }],
    family_map := [], graph := [], last_save_time := 0, nextId := 7,
    stateFile := none, exports := [], saveAttempts := 0 }

def demo1Scanner : Address → Code × String := fun _ => ("B", "NB2")

def demo1Score : Code → Code → Score := fun x y => if x = y then 100 else 50

theorem C1_witness :
    (handle_event demo1Scanner demo1Score 0 false false demo1Sys
        { token0 := ETH, token1 := "0xc" }).families =
      [{ id := 5, code := "A", count := 1, addresses := ["0xa"], names := ["NA"] }] ++
        { id := 6, code := "B", count := 2, addresses := ["0xb", "0xc"],
          names := setInsert ["NB"] "NB2" } :: [] ∧
    (handle_event demo1Scanner demo1Score 0 false false demo1Sys
        { token0 := ETH, token1 := "0xc" }).graph = demo1Sys.graph ∧
    (handle_event demo1Scanner demo1Score 0 false false demo1Sys
        { token0 := ETH, token1 := "0xc" }).nextId = demo1Sys.nextId ∧
    (handle_event demo1Scanner demo1Score 0 false false demo1Sys
        { token0 := ETH, token1 := "0xc" }).exports = demo1Sys.exports :=
  C1_first_match_assignment demo1Scanner demo1Score 0 false false demo1Sys
    { token0 := ETH, token1 := "0xc" } "0xc" "B" "NB2"
    [{ id := 5, code := "A", count := 1, addresses := ["0xa"], names := ["NA"] }]
    { id := 6, code := "B", count := 1, addresses := ["0xb"], names := ["NB"] } []
    (by decide) rfl (by decide) rfl (by decide) (by decide)

/-! ### Claim C2 -/

theorem buildFamilyMap_append_one (l : List ContractFamily) (G : ContractFamily) :
    buildFamilyMap (l ++ [G]) = alUpdate (buildFamilyMap l) G.id G := by
  unfold buildFamilyMap
  rw [List.foldl_append]
  rfl

theorem check_save_family_map (now : Nat) (ok : Bool) (s : Sys) :
    (check_save_state now ok s).family_map = s.family_map ∨
    (check_save_state now ok s).family_map = buildFamilyMap s.families := by
  unfold check_save_state
  split
  · exact Or.inr (save_state_family_map ok s)
  · exact Or.inl rfl

/-- Claim C2: an ingested record with non-empty code that matches no
existing family creates a new family whose representative code is the
record's code and whose count is 1; the new family is appended to the
end of the family list and added to the id index, and a bidirectional
graph edge carrying the measured similarity is written between the new
family and every pre-existing family compared.  Family-id uniqueness
and freshness of the generated id (uuid4 in the source) are stated as
hypotheses. -/
theorem C2_new_family_creation
    (scanner : Address → Code × String) (score : Code → Code → Score)
    (now : Nat) (saveOk expOk : Bool) (s : Sys) (ev : Event)
    (a : Address) (code : Code) (name : String)
    (hek : find_weth_token ev = some a)
    (hscan : scanner a = (code, name))
    (hcode : code ≠ "")
    (hnone : ∀ F ∈ s.families, ¬ (100 ≤ score F.code code))
    (hids : (s.families.map (fun P => P.id)).Nodup)
    (hfresh : s.nextId ∉ s.families.map (fun P => P.id)) :
    (handle_event scanner score now saveOk expOk s ev).families =
      s.families ++ [ContractFamily.init s.nextId { address := a, code := code, name := name }] ∧
    (ContractFamily.init s.nextId { address := a, code := code, name := name }).code = code ∧
    (ContractFamily.init s.nextId { address := a, code := code, name := name }).count = 1 ∧
    alFind (handle_event scanner score now saveOk expOk s ev).family_map s.nextId =
      some (ContractFamily.init s.nextId { address := a, code := code, name := name }) ∧
    ∀ F ∈ s.families,
      graphGet (handle_event scanner score now saveOk expOk s ev).graph s.nextId F.id =
        some (score F.code code) ∧
      graphGet (handle_event scanner score now saveOk expOk s ev).graph F.id s.nextId =
        some (score F.code code) := by
  have hred := handle_event_unmatched_eq scanner score now saveOk expOk s ev a code name
    hek hscan hcode hnone
  have hobs_keys :
      ((s.families.map (fun P => (P.id, score P.code code))).map Prod.fst).Nodup := by
    rw [List.map_map]
    exact hids
  have hobs_fresh :
      s.nextId ∉ (s.families.map (fun P => (P.id, score P.code code))).map Prod.fst := by
    rw [List.map_map]
    exact hfresh
  refine ⟨?_, rfl, rfl, ?_, ?_⟩
  · rw [hred, export_data_families, check_save_families]
  · rw [hred, export_data_family_map]
    rcases check_save_family_map now saveOk
      { s with
          families := s.families ++
            [ContractFamily.init s.nextId { address := a, code := code, name := name }],
          family_map := alUpdate s.family_map s.nextId
            (ContractFamily.init s.nextId { address := a, code := code, name := name }),
          nextId := s.nextId + 1,
          graph := writeEdges s.nextId
            (s.families.map (fun P => (P.id, score P.code code))) s.graph } with hfm | hfm <;>
      rw [hfm]
    · exact alFind_update_self _ _ _
    · rw [show ({ s with
          families := s.families ++
            [ContractFamily.init s.nextId { address := a, code := code, name := name }],
          family_map := alUpdate s.family_map s.nextId
            (ContractFamily.init s.nextId { address := a, code := code, name := name }),
          nextId := s.nextId + 1,
          graph := writeEdges s.nextId
            (s.families.map (fun P => (P.id, score P.code code))) s.graph } : Sys).families =
        s.families ++
          [ContractFamily.init s.nextId { address := a, code := code, name := name }] from rfl]
      rw [buildFamilyMap_append_one]
      exact alFind_update_self _ _ _
  · intro F hF
    have hmem : (F.id, score F.code code) ∈
        s.families.map (fun P => (P.id, score P.code code)) :=
      List.mem_map_of_mem (fun P => (P.id, score P.code code)) hF
    have hlook := writeEdges_lookup s.nextId
      (s.families.map (fun P => (P.id, score P.code code))) s.graph
      hobs_keys hobs_fresh (F.id, score F.code code) hmem
    rw [hred, export_data_graph, check_save_graph]
    exact hlook

/-- Concrete input for the C2 witness: one existing family scoring 40
against the record, so a new family is born with both edge directions
recorded. -/
def demo2Sys : Sys :=
  { families := [{ id := 0, code := "A", count := 1, addresses := ["0xa"], names := ["NA"] }],
    family_map := [(0, { id := 0, code := "A", count := 1, addresses := ["0xa"], names := ["NA"] })],
    graph := [], last_save_time := 0, nextId := 1,
    stateFile := none, exports := [], saveAttempts := 0 }

def demo2Scanner : Address → Code × String := fun _ => ("B", "NB")

def demo2Score : Code → Code → Score := fun x y => if x = y then 100 else 40

theorem C2_witness :
    (handle_event demo2Scanner demo2Score 0 false false demo2Sys
        { token0 := ETH, token1 := "0xb" }).families =
      demo2Sys.families ++
        [ContractFamily.init 1 { address := "0xb", code := "B", name := "NB" }] ∧
    (ContractFamily.init 1 { address := "0xb", code := "B", name := "NB" }).code = "B" ∧
    (ContractFamily.init 1 { address := "0xb", code := "B", name := "NB" }).count = 1 ∧
    alFind (handle_event demo2Scanner demo2Score 0 false false demo2Sys
        { token0 := ETH, token1 := "0xb" }).family_map 1 =
      some (ContractFamily.init 1 { address := "0xb", code := "B", name := "NB" }) ∧
    graphGet (handle_event demo2Scanner demo2Score 0 false false demo2Sys
        { token0 := ETH, token1 := "0xb" }).graph 1 0 = some 40 ∧
    graphGet (handle_event demo2Scanner demo2Score 0 false false demo2Sys
        { token0 := ETH, token1 := "0xb" }).graph 0 1 = some 40 := by
  have h := C2_new_family_creation demo2Scanner demo2Score 0 false false demo2Sys
    { token0 := ETH, token1 := "0xb" } "0xb" "B" "NB"
    (by decide) rfl (by decide) (by decide) (by decide) (by decide)
  have hedge := h.2.2.2.2
    { id := 0, code := "A", count := 1, addresses := ["0xa"], names := ["NA"] }
    (by decide)
  refine ⟨h.1, h.2.1, h.2.2.1, h.2.2.2.1, ?_, ?_⟩
  · simpa using hedge.1
  · simpa using hedge.2

/-! ### Claim C3 -/

/-- Concrete input for the C3 counterexample and witness: one family
with code A; the record also has code A, so it matches (identical code
scores 100) and the match branch runs. -/
def demo3Sys : Sys :=
  { families := [{ id := 0, code := "A", count := 1, addresses := ["0xa"], names := ["NA"] }],
    family_map := [], graph := [], last_save_time := 0, nextId := 1,
    stateFile := none, exports := [], saveAttempts := 0 }

def demo3Scanner : Address → Code × String := fun _ => ("A", "N2")

def demo3Score : Code → Code → Score := fun x y => if x = y then 100 else 0

/-- Claim C3 counterexample: an ingestion that matches an existing
family mutates the engine (the family list changes) yet writes no
export before returning - the export file history is untouched even
though the export write would have succeeded (expOk = true).  This
refutes the claim that the snapshot export is produced after every
mutating Ingest call. -/
theorem C3_counterexample :
    (handle_event demo3Scanner demo3Score 0 true true demo3Sys
        { token0 := ETH, token1 := "0xb" }).exports = demo3Sys.exports ∧
    (handle_event demo3Scanner demo3Score 0 true true demo3Sys
        { token0 := ETH, token1 := "0xb" }).families ≠ demo3Sys.families := by
  decide

theorem export_data_true_exports (s : Sys) :
    (export_data true s).exports = s.exports ++ [export_of s] := by
  simp [export_data]

/-- Claim C3 amended: the snapshot export is produced after exactly the
Ingest calls that create a new family (when the export write succeeds);
an ingestion that matches an existing family returns without exporting. -/
theorem C3_amended_export_only_on_birth :
    (∀ (scanner : Address → Code × String) (score : Code → Code → Score)
        (now : Nat) (saveOk expOk : Bool) (s : Sys) (ev : Event)
        (a : Address) (code : Code) (name : String)
        (fpre : List ContractFamily) (F : ContractFamily) (fpost : List ContractFamily),
      find_weth_token ev = some a → scanner a = (code, name) → code ≠ "" →
      s.families = fpre ++ F :: fpost →
      (∀ P ∈ fpre, ¬ (100 ≤ score P.code code)) →
      (100 ≤ score F.code code) →
      (handle_event scanner score now saveOk expOk s ev).exports = s.exports) ∧
    (∀ (scanner : Address → Code × String) (score : Code → Code → Score)
        (now : Nat) (saveOk : Bool) (s : Sys) (ev : Event)
        (a : Address) (code : Code) (name : String),
      find_weth_token ev = some a → scanner a = (code, name) → code ≠ "" →
      (∀ F ∈ s.families, ¬ (100 ≤ score F.code code)) →
      ∃ e, (handle_event scanner score now saveOk true s ev).exports = s.exports ++ [e]) := by
  constructor
  · intro scanner score now saveOk expOk s ev a code name fpre F fpost
      hek hscan hcode hsplit hpre hmatch
    rw [handle_event_matched_eq scanner score now saveOk expOk s ev a code name
      fpre F fpost hek hscan hcode hsplit hpre hmatch]
    rw [check_save_exports]
  · intro scanner score now saveOk s ev a code name hek hscan hcode hnone
    rw [handle_event_unmatched_eq scanner score now saveOk true s ev a code name
      hek hscan hcode hnone]
    rw [export_data_true_exports, check_save_exports]
    exact ⟨_, rfl⟩

theorem C3_witness :
    (handle_event demo3Scanner demo3Score 0 true true demo3Sys
        { token0 := ETH, token1 := "0xb" }).exports = demo3Sys.exports ∧
    (handle_event demo2Scanner demo2Score 0 false true demo2Sys
        { token0 := ETH, token1 := "0xb" }).exports.length =
      demo2Sys.exports.length + 1 := by
  constructor
  · exact C3_amended_export_only_on_birth.1 demo3Scanner demo3Score 0 true true demo3Sys
      { token0 := ETH, token1 := "0xb" } "0xb" "A" "N2"
      [] { id := 0, code := "A", count := 1, addresses := ["0xa"], names := ["NA"] } []
      (by decide) rfl (by decide) rfl (by decide) (by decide)
  · obtain ⟨e, he⟩ := C3_amended_export_only_on_birth.2 demo2Scanner demo2Score 0 false
      demo2Sys { token0 := ETH, token1 := "0xb" } "0xb" "B" "NB"
      (by decide) rfl (by decide) (by decide)
    rw [he]
    simp

/-! ### Claim C4 -/

def demo4Sys : Sys :=
  { families := [], family_map := [], graph := [], last_save_time := 0, nextId := 0,
    stateFile := none, exports := [], saveAttempts := 0 }

/-- Claim C4 counterexample: with the interval elapsed and a failing
store (ok = false), check_save_state attempts the save (saveAttempts
grows, the state file stays absent) and nevertheless moves the baseline
last_save_time to the current time.  This refutes the claim that the
baseline is updated only when a checkpoint save succeeds. -/
theorem C4_counterexample :
    (check_save_state 400 false demo4Sys).saveAttempts = demo4Sys.saveAttempts + 1 ∧
    (check_save_state 400 false demo4Sys).stateFile = none ∧
    (check_save_state 400 false demo4Sys).last_save_time = 400 ∧
    demo4Sys.last_save_time ≠ 400 := by
  decide

/-- Claim C4 amended: whenever the time gate fires, check_save_state
attempts the save and then sets the baseline to the current time
regardless of success (save_state swallows its own exceptions), so
after a failed save the engine waits a full new interval before the
next attempt; the state file is replaced exactly when the save
succeeded. -/
theorem C4_amended_baseline_updated_on_attempt
    (now : Nat) (ok : Bool) (s : Sys)
    (hfire : save_interval < now - s.last_save_time) :
    (check_save_state now ok s).last_save_time = now ∧
    (check_save_state now ok s).saveAttempts = s.saveAttempts + 1 ∧
    (check_save_state now ok s).stateFile =
      (if ok then
        some { families := s.families, family_map := buildFamilyMap s.families,
               graph := s.graph }
      else s.stateFile) := by
  unfold check_save_state
  rw [if_pos hfire]
  refine ⟨rfl, save_state_attempts ok s, ?_⟩
  cases ok with
  | true => simpa using save_state_stateFile_true s
  | false => simpa using save_state_stateFile_false s

theorem C4_witness :
    (check_save_state 400 false demo4Sys).last_save_time = 400 ∧
    (check_save_state 400 false demo4Sys).saveAttempts = demo4Sys.saveAttempts + 1 ∧
    (check_save_state 400 false demo4Sys).stateFile =
      (if false then
        some { families := demo4Sys.families,
               family_map := buildFamilyMap demo4Sys.families,
               graph := demo4Sys.graph }
      else demo4Sys.stateFile) :=
  C4_amended_baseline_updated_on_attempt 400 false demo4Sys (by decide)

/-! ### Claim C6 -/

def demo6Scanner : Address → Code × String := fun _ => ("W", "WETH")

def demo6Score : Code → Code → Score := fun _ _ => 0

/-- Claim C6 counterexample: when both tokens equal the reference token,
find_weth_token returns token1 (the reference token itself) instead of
discarding, and handle_event goes on to mutate the engine (a family is
created from the reference token's code).  This refutes the claimed
"neither or both" discard rule for the "both" case. -/
theorem C6_counterexample :
    find_weth_token { token0 := ETH, token1 := ETH } = some ETH ∧
    (handle_event demo6Scanner demo6Score 0 false false (initSys 0)
        { token0 := ETH, token1 := ETH }).families ≠ (initSys 0).families := by
  decide

/-- Claim C6 amended: the subject is token1 whenever token0 equals the
reference token - including when both sides do - otherwise token0 when
token1 equals the reference token; only when neither side equals the
reference token is the event discarded silently, with no state change
and no error. -/
theorem C6_amended_subject_selection :
    (∀ ev : Event, ev.token0 = ETH → find_weth_token ev = some ev.token1) ∧
    (∀ ev : Event, ev.token0 ≠ ETH → ev.token1 = ETH → find_weth_token ev = some ev.token0) ∧
    (∀ (scanner : Address → Code × String) (score : Code → Code → Score)
        (now : Nat) (saveOk expOk : Bool) (s : Sys) (ev : Event),
      ev.token0 ≠ ETH → ev.token1 ≠ ETH →
      handle_event scanner score now saveOk expOk s ev = s) := by
  refine ⟨?_, ?_, ?_⟩
  · intro ev h
    simp [find_weth_token, h]
  · intro ev h0 h1
    simp [find_weth_token, h0, h1]
  · intro scanner score now saveOk expOk s ev h0 h1
    unfold handle_event
    rw [show find_weth_token ev = none by simp [find_weth_token, h0, h1]]

theorem C6_witness :
    find_weth_token { token0 := ETH, token1 := "0xb" } = some "0xb" ∧
    find_weth_token { token0 := "0xa", token1 := ETH } = some "0xa" ∧
    handle_event demo6Scanner demo6Score 0 false false (initSys 0)
      { token0 := "0xa", token1 := "0xb" } = initSys 0 :=
  ⟨C6_amended_subject_selection.1 { token0 := ETH, token1 := "0xb" } rfl,
   C6_amended_subject_selection.2.1 { token0 := "0xa", token1 := ETH } (by decide) rfl,
   C6_amended_subject_selection.2.2 demo6Scanner demo6Score 0 false false (initSys 0)
     { token0 := "0xa", token1 := "0xb" } (by decide) (by decide)⟩

/-! ### Claim C10 -/

theorem foldl_setInsert (l : List String) : ∀ acc : List String,
    (∀ x ∈ l, x ∉ acc) → l.Nodup → l.foldl setInsert acc = acc ++ l := by
  induction l with
  | nil => intro acc _ _; simp
  | cons x rest ih =>
    intro acc hdisj hnd
    have hx : x ∉ acc := hdisj x (List.mem_cons_self _ _)
    have hstep : (x :: rest).foldl setInsert acc = rest.foldl setInsert (setInsert acc x) := rfl
    have hset : setInsert acc x = acc ++ [x] := by simp [setInsert, hx]
    have hdisj2 : ∀ y ∈ rest, y ∉ acc ++ [x] := by
      intro y hy hmem
      rcases List.mem_append.mp hmem with hmem | hmem
      · exact hdisj y (List.mem_cons_of_mem _ hy) hmem
      · have : y = x := by simpa using hmem
        exact (List.nodup_cons.mp hnd).1 (this ▸ hy)
    rw [hstep, hset, ih (acc ++ [x]) hdisj2 (List.nodup_cons.mp hnd).2]
    simp

theorem setOfList_nodup (l : List String) (h : l.Nodup) : setOfList l = l := by
  have := foldl_setInsert l [] (by simp) h
  simpa [setOfList] using this

/-- Claim C10: for a family whose addresses and names are non-empty,
from_dict (to_dict f) returns exactly f (id, representative code,
count, address sequence and name set all preserved; the set round-trip
uses the duplicate-freedom invariant of the list model of a set); and
from_dict is undefined (none) whenever the stored addresses or names
are empty, since it reads the first element of both. -/
theorem C10_family_dict_roundtrip :
    (∀ f : ContractFamily, f.addresses ≠ [] → f.names ≠ [] → f.names.Nodup →
      ContractFamily.from_dict (ContractFamily.to_dict f) = some f) ∧
    (∀ d : FamilyDict, d.addresses = [] ∨ d.names = [] →
      ContractFamily.from_dict d = none) := by
  constructor
  · intro f ha hn hnd
    obtain ⟨i, code, count, addresses, names⟩ := f
    cases addresses with
    | nil => exact absurd rfl ha
    | cons a0 arest =>
      cases names with
      | nil => exact absurd rfl hn
      | cons n0 nrest =>
        simp only [ContractFamily.to_dict, ContractFamily.from_dict, ContractFamily.init]
        rw [setOfList_nodup _ hnd]
  · intro d hd
    obtain ⟨i, code, count, addresses, names⟩ := d
    rcases hd with h | h
    · simp only at h
      subst h
      cases names <;> rfl
    · simp only at h
      subst h
      cases addresses <;> rfl

theorem C10_witness :
    ContractFamily.from_dict (ContractFamily.to_dict
        { id := 3, code := "C", count := 2, addresses := ["0xa", "0xb"],
          names := ["N1", "N2"] }) =
      some { id := 3, code := "C", count := 2, addresses := ["0xa", "0xb"],
             names := ["N1", "N2"] } ∧
    ContractFamily.from_dict
        { id := 4, code := "D", count := 0, addresses := [], names := [] } = none :=
  ⟨C10_family_dict_roundtrip.1
      { id := 3, code := "C", count := 2, addresses := ["0xa", "0xb"], names := ["N1", "N2"] }
      (by decide) (by decide) (by decide),
   C10_family_dict_roundtrip.2
      { id := 4, code := "D", count := 0, addresses := [], names := [] } (Or.inl rfl)⟩

/-! ### Claim C8 -/

theorem matchFamiliesE_ok (scoreE : Code → Code → Except String Score)
    (score : Code → Code → Score) (h : ∀ x y, scoreE x y = Except.ok (score x y))
    (c : Contract) : ∀ fams : List ContractFamily,
    matchFamiliesE scoreE c fams = Except.ok (matchFamilies score c fams) := by
  intro fams
  induction fams with
  | nil => rfl
  | cons f rest ih =>
    simp only [matchFamiliesE, matchFamilies, ContractFamily.is_similar, h]
    by_cases hs : (100 : Score) ≤ score f.code c.code
    · simp [hs]
    · simp only [hs, if_false, decide_eq_true_eq, ih]
      cases hrec : matchFamilies score c rest <;> simp [hs]

/-- Claim C8: if the similarity oracle fails during the comparison
phase of an ingestion, the error propagates out of handle_event and the
engine state is returned exactly as it was before the call began (the
loop performs no mutation before a decision is reached); and when the
oracle never fails, the fallible ingestion agrees with the pure one and
reports no error. -/
theorem C8_oracle_failure_leaves_state
    (scanner : Address → Code × String) (scoreE : Code → Code → Except String Score)
    (now : Nat) (saveOk expOk : Bool) (s : Sys) (ev : Event) :
    ((handle_eventE scanner scoreE now saveOk expOk s ev).2.isSome →
      (handle_eventE scanner scoreE now saveOk expOk s ev).1 = s) ∧
    (∀ score : Code → Code → Score, (∀ x y, scoreE x y = Except.ok (score x y)) →
      handle_eventE scanner scoreE now saveOk expOk s ev =
        (handle_event scanner score now saveOk expOk s ev, none)) := by
  constructor
  · unfold handle_eventE
    cases hek : find_weth_token ev with
    | none => intro _; rfl
    | some address =>
      dsimp only
      by_cases hlen : (scanner address).1.length = 0
      · rw [if_pos hlen]
        intro _; rfl
      · rw [if_neg hlen]
        cases hm : matchFamiliesE scoreE
            { address := address, code := (scanner address).1,
              name := (scanner address).2 } s.families with
        | error e => intro _; rfl
        | ok r =>
          cases r with
          | matched fams => intro hsome; simp at hsome
          | unmatched obs => intro hsome; simp at hsome
  · intro score h
    unfold handle_eventE handle_event
    cases hek : find_weth_token ev with
    | none => rfl
    | some address =>
      dsimp only
      by_cases hlen : (scanner address).1.length = 0
      · rw [if_pos hlen, if_pos hlen]
      · rw [if_neg hlen, if_neg hlen]
        rw [matchFamiliesE_ok scoreE score h]
        cases hm : matchFamilies score
            { address := address, code := (scanner address).1,
              name := (scanner address).2 } s.families <;> rfl

/-- Concrete inputs for the C8 witness: a failing oracle on a one-family
engine leaves the state untouched and surfaces the error; the same call
with a total oracle agrees with the pure handle_event. -/
def demo8ScoreE : Code → Code → Except String Score := fun _ _ => Except.error "boom"

def demo8ScoreOk : Code → Code → Except String Score := fun x y => Except.ok (demo2Score x y)

theorem C8_witness :
    (handle_eventE demo2Scanner demo8ScoreE 0 false false demo2Sys
        { token0 := ETH, token1 := "0xb" }).1 = demo2Sys ∧
    handle_eventE demo2Scanner demo8ScoreOk 0 false false demo2Sys
        { token0 := ETH, token1 := "0xb" } =
      (handle_event demo2Scanner demo2Score 0 false false demo2Sys
        { token0 := ETH, token1 := "0xb" }, none) :=
  ⟨(C8_oracle_failure_leaves_state demo2Scanner demo8ScoreE 0 false false demo2Sys
      { token0 := ETH, token1 := "0xb" }).1 (by decide),
   (C8_oracle_failure_leaves_state demo2Scanner demo8ScoreOk 0 false false demo2Sys
      { token0 := ETH, token1 := "0xb" }).2 demo2Score (fun x y => rfl)⟩

/-! ### Claim C7 -/

/-- Well-formedness of the graph representation, an invariant of every
graph the engine builds: outer keys are distinct, and every inner dict
is non-empty with distinct keys. -/
def GraphWF (g : Graph) : Prop :=
  (g.map Prod.fst).Nodup ∧ ∀ p ∈ g, p.2 ≠ [] ∧ (p.2.map Prod.fst).Nodup

theorem innerFold_build (k : FamId) (acc : Graph) (hk : alFind acc k = none) :
    ∀ (todo done : List (FamId × Score)),
      ((done ++ todo).map Prod.fst).Nodup →
      todo.foldl (fun a q => graphSet a k q.1 q.2) (acc ++ [(k, done)]) =
        acc ++ [(k, done ++ todo)] := by
  intro todo
  induction todo with
  | nil => intro done _; simp
  | cons q rest ih =>
    intro done hnd
    have hfind : alFind (acc ++ [(k, done)]) k = some done := by
      rw [alFind_append_none _ _ _ hk]
      simp [alFind]
    have hq : alFind done q.1 = none := by
      rw [alFind_eq_none_iff]
      intro hmem
      have hnd2 := hnd
      rw [List.map_append] at hnd2
      exact List.disjoint_of_nodup_append hnd2 hmem (by simp)
    have hstep : (q :: rest).foldl (fun a q2 => graphSet a k q2.1 q2.2) (acc ++ [(k, done)]) =
        rest.foldl (fun a q2 => graphSet a k q2.1 q2.2)
          (graphSet (acc ++ [(k, done)]) k q.1 q.2) := rfl
    have hgs : graphSet (acc ++ [(k, done)]) k q.1 q.2 = acc ++ [(k, done ++ [q])] := by
      unfold graphSet
      rw [hfind]
      rw [show (some done).getD [] = done from rfl]
      rw [alUpdate_absent_append done q.1 q.2 hq]
      rw [alUpdate_append_absent acc k done _ hk]
    rw [hstep, hgs, ih (done ++ [q]) (by simpa [List.append_assoc] using hnd)]
    simp

theorem innerFold_build_all (k : FamId) (acc : Graph) (hk : alFind acc k = none)
    (inner : List (FamId × Score)) (hne : inner ≠ []) (hnd : (inner.map Prod.fst).Nodup) :
    inner.foldl (fun a q => graphSet a k q.1 q.2) acc = acc ++ [(k, inner)] := by
  cases inner with
  | nil => exact absurd rfl hne
  | cons q rest =>
    have h1 : graphSet acc k q.1 q.2 = acc ++ [(k, [q])] := by
      unfold graphSet
      rw [hk]
      rw [show (none : Option (List (FamId × Score))).getD [] = [] from rfl]
      rw [alUpdate_absent_append acc k _ hk]
      rfl
    have hstep : (q :: rest).foldl (fun a q2 => graphSet a k q2.1 q2.2) acc =
        rest.foldl (fun a q2 => graphSet a k q2.1 q2.2) (graphSet acc k q.1 q.2) := rfl
    rw [hstep, h1, innerFold_build k acc hk rest [q] (by simpa using hnd)]
    simp

theorem loadGraphFold_build : ∀ (g acc : Graph),
    GraphWF g → (∀ k ∈ g.map Prod.fst, alFind acc k = none) →
    g.foldl (fun acc2 p => p.2.foldl (fun acc3 q => graphSet acc3 p.1 q.1 q.2) acc2) acc =
      acc ++ g := by
  intro g
  induction g with
  | nil => intro acc _ _; simp
  | cons p rest ih =>
    intro acc hWF hdisj
    obtain ⟨k, inner⟩ := p
    have hk : alFind acc k = none := hdisj k (by simp)
    have hinner := hWF.2 (k, inner) (by simp)
    have hkeys : (k :: rest.map Prod.fst).Nodup := by simpa using hWF.1
    have hstep : ((k, inner) :: rest).foldl
        (fun acc2 p2 => p2.2.foldl (fun acc3 q => graphSet acc3 p2.1 q.1 q.2) acc2) acc =
        rest.foldl (fun acc2 p2 => p2.2.foldl (fun acc3 q => graphSet acc3 p2.1 q.1 q.2) acc2)
          (inner.foldl (fun a q => graphSet a k q.1 q.2) acc) := rfl
    rw [hstep, innerFold_build_all k acc hk inner hinner.1 hinner.2]
    rw [ih (acc ++ [(k, inner)]) ?wfrest ?disj2]
    · simp
    case wfrest =>
      refine ⟨(List.nodup_cons.mp hkeys).2, ?_⟩
      intro p2 hp2
      exact hWF.2 p2 (List.mem_cons_of_mem _ hp2)
    case disj2 =>
      intro k2 hk2
      have hk2k : k2 ≠ k := by
        intro he
        exact (List.nodup_cons.mp hkeys).1 (he ▸ hk2)
      rw [alFind_append_none _ _ _ (hdisj k2 (List.mem_cons_of_mem _ hk2))]
      simp [alFind, Ne.symm hk2k]

theorem load_state_graph_eq (s : Sys) (cp : Checkpoint) (hs : s.graph = [])
    (hWF : GraphWF cp.graph) : (load_state s cp).graph = cp.graph := by
  unfold load_state
  dsimp only
  rw [hs]
  rw [loadGraphFold_build cp.graph [] hWF (by intro k _; rfl)]
  rfl

/-- Claim C7: loading (into a freshly constructed engine, as main does
at startup) a checkpoint that save_state produced from a state with a
well-formed graph reproduces the families in their original creation
order with all fields intact, the graph, and the id index of the saved
state. -/
theorem C7_checkpoint_roundtrip (s : Sys) (t0 : Nat) (cp : Checkpoint)
    (hWF : GraphWF s.graph)
    (hsave : (save_state true s).stateFile = some cp) :
    (load_state (initSys t0) cp).families = s.families ∧
    (load_state (initSys t0) cp).graph = s.graph ∧
    (load_state (initSys t0) cp).family_map = (save_state true s).family_map := by
  have hcp : cp =
      { families := s.families, family_map := buildFamilyMap s.families,
        graph := s.graph } := by
    rw [save_state_stateFile_true s] at hsave
    exact (Option.some.inj hsave).symm
  subst hcp
  refine ⟨rfl, ?_, ?_⟩
  · exact load_state_graph_eq (initSys t0) _ rfl hWF
  · unfold load_state
    dsimp only
    rw [save_state_family_map]
    split <;> rfl

/-- Concrete input for the C7 witness: two families and a symmetric
one-edge graph survive the save / load round trip. -/
def demo7Sys : Sys :=
  { families := [{ id := 0, code := "A", count := 1, addresses := ["0xa"], names := ["NA"] },
                 { id := 1, code := "B", count := 1, addresses := ["0xb"], names := ["NB"] }],
    family_map := [], graph := [(1, [(0, 40)]), (0, [(1, 40)])],
    last_save_time := 0, nextId := 2, stateFile := none, exports := [], saveAttempts := 0 }

def demo7Cp : Checkpoint :=
  { families := demo7Sys.families, family_map := buildFamilyMap demo7Sys.families,
    graph := demo7Sys.graph }

theorem C7_witness :
    (load_state (initSys 0) demo7Cp).families = demo7Sys.families ∧
    (load_state (initSys 0) demo7Cp).graph = demo7Sys.graph ∧
    (load_state (initSys 0) demo7Cp).family_map = (save_state true demo7Sys).family_map :=
  C7_checkpoint_roundtrip demo7Sys 0 demo7Cp
    (by constructor
        · decide
        · decide)
    (by decide)

/-! ### Claim C9 -/

/-- Symmetry of the similarity graph: every written edge has its
mirror edge with the same score. -/
def GraphSym (g : Graph) : Prop :=
  ∀ a b : FamId, ∀ v : Score, graphGet g a b = some v → graphGet g b a = some v

theorem alFind_some_mem {A : Type} (m : List (FamId × A)) (k : FamId) (v : A)
    (h : alFind m k = some v) : (k, v) ∈ m := by
  induction m with
  | nil => simp [alFind] at h
  | cons p rest ih =>
    obtain ⟨k2, v2⟩ := p
    by_cases h2 : k2 = k
    · subst h2
      simp [alFind] at h
      subst h
      exact List.mem_cons_self _ _
    · simp [alFind, h2] at h
      exact List.mem_cons_of_mem _ (ih h)

theorem graphWF_set (g : Graph) (a b : FamId) (v : Score) (h : GraphWF g) :
    GraphWF (graphSet g a b v) := by
  unfold graphSet
  constructor
  · exact alUpdate_keys_nodup _ _ _ h.1
  · intro p hp
    rcases mem_alUpdate _ _ _ p hp with hpe | hpm
    · subst hpe
      refine ⟨alUpdate_ne_nil _ _ _, ?_⟩
      cases hfa : alFind g a with
      | none => simp [hfa, alUpdate]
      | some inner =>
        simp only [hfa, Option.getD_some]
        exact alUpdate_keys_nodup _ _ _ (h.2 (a, inner) (alFind_some_mem g a inner hfa)).2
    · exact h.2 p hpm

theorem graphSym_pairSet (g : Graph) (a b : FamId) (v : Score) (h : GraphSym g) :
    GraphSym (graphSet (graphSet g a b v) b a v) := by
  intro x y w hxy
  by_cases hba : x = b ∧ y = a
  · obtain ⟨hx, hy⟩ := hba
    subst hx; subst hy
    rw [graphGet_set_self] at hxy
    obtain rfl : v = w := Option.some.inj hxy
    by_cases hab : x = y
    · subst hab
      exact graphGet_set_self _ _ _ _
    · rw [graphGet_set_ne _ x y v y x (fun hc => hab hc.1.symm)]
      exact graphGet_set_self g y x v
  · rw [graphGet_set_ne _ b a v x y hba] at hxy
    by_cases hab2 : x = a ∧ y = b
    · obtain ⟨hx, hy⟩ := hab2
      subst hx; subst hy
      rw [graphGet_set_self] at hxy
      obtain rfl : v = w := Option.some.inj hxy
      exact graphGet_set_self _ _ _ _
    · rw [graphGet_set_ne _ a b v x y hab2] at hxy
      have hyx := h x y w hxy
      have h1 : ¬(y = b ∧ x = a) := fun hc => hab2 ⟨hc.2, hc.1⟩
      have h2 : ¬(y = a ∧ x = b) := fun hc => hba ⟨hc.2, hc.1⟩
      rw [graphGet_set_ne _ b a v y x h1, graphGet_set_ne _ a b v y x h2]
      exact hyx

theorem graphWF_writeEdges (gid : FamId) : ∀ (obs : List (FamId × Score)) (g : Graph),
    GraphWF g → GraphWF (writeEdges gid obs g) := by
  intro obs
  induction obs with
  | nil => intro g h; exact h
  | cons q rest ih =>
    intro g h
    exact ih _ (graphWF_set _ _ _ _ (graphWF_set _ _ _ _ h))

theorem graphSym_writeEdges (gid : FamId) : ∀ (obs : List (FamId × Score)) (g : Graph),
    GraphSym g → GraphSym (writeEdges gid obs g) := by
  intro obs
  induction obs with
  | nil => intro g h; exact h
  | cons q rest ih =>
    intro g h
    exact ih _ (graphSym_pairSet _ _ _ _ h)

/-- The graph invariant carried across the whole lifecycle: the live
graph and any checkpointed graph are well formed and symmetric. -/
def GraphInv (s : Sys) : Prop :=
  GraphWF s.graph ∧ GraphSym s.graph ∧
    ∀ cp : Checkpoint, s.stateFile = some cp → GraphWF cp.graph ∧ GraphSym cp.graph

theorem graphInv_save (ok : Bool) (s : Sys) (h : GraphInv s) :
    GraphInv (save_state ok s) := by
  refine ⟨?_, ?_, ?_⟩
  · rw [save_state_graph]; exact h.1
  · rw [save_state_graph]; exact h.2.1
  · intro cp hcp
    cases ok with
    | true =>
      rw [save_state_stateFile_true] at hcp
      have he := Option.some.inj hcp
      subst he
      exact ⟨h.1, h.2.1⟩
    | false =>
      rw [save_state_stateFile_false] at hcp
      exact h.2.2 cp hcp

theorem graphInv_check_save (now : Nat) (ok : Bool) (s : Sys) (h : GraphInv s) :
    GraphInv (check_save_state now ok s) := by
  unfold check_save_state
  split
  · have h2 := graphInv_save ok s h
    exact ⟨h2.1, h2.2.1, h2.2.2⟩
  · exact h

theorem graphInv_export (ok : Bool) (s : Sys) (h : GraphInv s) :
    GraphInv (export_data ok s) := by
  unfold export_data
  split
  · exact ⟨h.1, h.2.1, h.2.2⟩
  · exact h

theorem graphInv_handle (scanner : Address → Code × String) (score : Code → Code → Score)
    (now : Nat) (saveOk expOk : Bool) (s : Sys) (ev : Event) (h : GraphInv s) :
    GraphInv (handle_event scanner score now saveOk expOk s ev) := by
  unfold handle_event
  cases hek : find_weth_token ev with
  | none => exact h
  | some address =>
    dsimp only
    by_cases hlen : (scanner address).1.length = 0
    · rw [if_pos hlen]
      exact h
    · rw [if_neg hlen]
      cases hm : matchFamilies score
          { address := address, code := (scanner address).1,
            name := (scanner address).2 } s.families with
      | matched fams => exact graphInv_check_save now saveOk _ h
      | unmatched obs =>
        apply graphInv_export
        apply graphInv_check_save
        refine ⟨?_, ?_, ?_⟩
        · exact graphWF_writeEdges _ obs _ h.1
        · exact graphSym_writeEdges _ obs _ h.2.1
        · exact h.2.2

theorem graphInv_restart (cp : Checkpoint) (t0 : Nat)
    (hWF : GraphWF cp.graph) (hSym : GraphSym cp.graph) :
    GraphInv (load_state { initSys t0 with stateFile := some cp } cp) := by
  have hg : (load_state { initSys t0 with stateFile := some cp } cp).graph = cp.graph :=
    load_state_graph_eq _ cp rfl hWF
  refine ⟨?_, ?_, ?_⟩
  · rw [hg]; exact hWF
  · rw [hg]; exact hSym
  · intro cp2 hcp2
    have he : cp = cp2 := Option.some.inj hcp2
    subst he
    exact ⟨hWF, hSym⟩

theorem reachable_graphInv (scanner : Address → Code × String)
    (score : Code → Code → Score) : ∀ s : Sys, Reachable scanner score s → GraphInv s := by
  intro s h
  induction h with
  | boot t0 =>
    refine ⟨⟨List.nodup_nil, ?_⟩, ?_, ?_⟩
    · intro p hp
      simp [initSys] at hp
    · intro a b v hv
      simp [initSys, graphGet, alFind] at hv
    · intro cp hcp
      simp [initSys] at hcp
  | step s2 ev now saveOk expOk hr ih =>
    exact graphInv_handle scanner score now saveOk expOk s2 ev ih
  | shutdown s2 ok hr ih =>
    exact graphInv_save ok s2 ih
  | restart s2 cp t0 hr hfile ih =>
    have h2 := ih.2.2 cp hfile
    exact graphInv_restart cp t0 h2.1 h2.2

/-- Claim C9: in every reachable engine state - across any sequence of
ingestions, shutdown saves, and checkpoint save / restart-load cycles -
the similarity graph is symmetric: every recorded edge (a, b) has the
mirror edge (b, a) with the same score. -/
theorem C9_graph_symmetry (scanner : Address → Code × String)
    (score : Code → Code → Score) (s : Sys)
    (hr : Reachable scanner score s) (a b : FamId) (v : Score)
    (he : graphGet s.graph a b = some v) : graphGet s.graph b a = some v :=
  (reachable_graphInv scanner score s hr).2.1 a b v he

/-- Concrete two-event run for the C9 witness: the second ingestion
creates a second family and writes the 40-score edge in both
directions. -/
def demo9Scanner : Address → Code × String :=
  fun a => if a = "0xa" then ("A", "NA") else ("B", "NB")

def demo9Score : Code → Code → Score := fun x y => if x = y then 100 else 40

def demo9Sys1 : Sys :=
  handle_event demo9Scanner demo9Score 0 false false (initSys 0)
    { token0 := ETH, token1 := "0xa" }

def demo9Sys2 : Sys :=
  handle_event demo9Scanner demo9Score 0 false false demo9Sys1
    { token0 := ETH, token1 := "0xb" }

theorem C9_witness : graphGet demo9Sys2.graph 0 1 = some 40 :=
  C9_graph_symmetry demo9Scanner demo9Score demo9Sys2
    (Reachable.step demo9Sys1 { token0 := ETH, token1 := "0xb" } 0 false false
      (Reachable.step (initSys 0) { token0 := ETH, token1 := "0xa" } 0 false false
        (Reachable.boot 0)))
    1 0 40 (by decide)

/-! ### Claim C5 -/

/-- Index of the first representative code in the list scoring at least
the threshold against c: the family the greedy loop assigns c to. -/
def firstMatchIdx (score : Code → Code → Score) (c : Code) : List Code → Option Nat
  | [] => none
  | rc :: rest =>
    if 100 ≤ score rc c then some 0
    else (firstMatchIdx score c rest).map (fun i => i + 1)

theorem firstMatchIdx_append_some (score : Code → Code → Score) (c : Code)
    (l1 l2 : List Code) (i : Nat) (h : firstMatchIdx score c l1 = some i) :
    firstMatchIdx score c (l1 ++ l2) = some i := by
  induction l1 generalizing i with
  | nil => simp [firstMatchIdx] at h
  | cons rc rest ih =>
    rw [List.cons_append]
    by_cases hrc : 100 ≤ score rc c
    · simp only [firstMatchIdx, if_pos hrc] at h ⊢
      exact h
    · simp only [firstMatchIdx, if_neg hrc] at h ⊢
      cases hr : firstMatchIdx score c rest with
      | none => rw [hr] at h; simp at h
      | some k =>
        rw [hr] at h
        rw [ih k hr]
        exact h

theorem firstMatchIdx_spec (score : Code → Code → Score) (c : Code)
    (l1 : List Code) (rc : Code) (l2 : List Code)
    (hpre : ∀ x ∈ l1, ¬ (100 ≤ score x c)) (hrc : 100 ≤ score rc c) :
    firstMatchIdx score c (l1 ++ rc :: l2) = some l1.length := by
  induction l1 with
  | nil => simp [firstMatchIdx, hrc]
  | cons x rest ih =>
    have hx : ¬ (100 ≤ score x c) := hpre x (List.mem_cons_self _ _)
    rw [List.cons_append]
    simp only [firstMatchIdx, if_neg hx]
    rw [ih (fun y hy => hpre y (List.mem_cons_of_mem _ hy))]
    simp

theorem getElem?_middle {α : Type _} (l1 : List α) (x : α) (l2 : List α) :
    (l1 ++ x :: l2)[l1.length]? = some x := by
  rw [List.getElem?_append_right (Nat.le_refl _)]
  simp

theorem getElem?_middle_ne {α : Type _} (l1 : List α) (x y : α) (l2 : List α) (i : Nat)
    (hne : i ≠ l1.length) : (l1 ++ x :: l2)[i]? = (l1 ++ y :: l2)[i]? := by
  by_cases hi : i < l1.length
  · rw [List.getElem?_append_left hi, List.getElem?_append_left hi]
  · have hle : l1.length ≤ i := Nat.le_of_not_lt hi
    rw [List.getElem?_append_right hle, List.getElem?_append_right hle]
    cases hd : i - l1.length with
    | zero => exact absurd (Nat.le_antisymm (Nat.sub_eq_zero_iff_le.mp hd) hle) hne
    | succ k => simp

/-- The assignment invariant behind exclusivity: every address stored
in the family at position i has non-empty code (under the fixed
scanner) and the greedy first-match index for that code is exactly i. -/
def FamiliesInv (scanner : Address → Code × String) (score : Code → Code → Score)
    (fams : List ContractFamily) : Prop :=
  ∀ (i : Nat) (Fi : ContractFamily), fams[i]? = some Fi → ∀ a ∈ Fi.addresses,
    (scanner a).1 ≠ "" ∧
    firstMatchIdx score ((scanner a).1) (fams.map (fun P => P.code)) = some i

theorem famInv_handle (scanner : Address → Code × String) (score : Code → Code → Score)
    (now : Nat) (saveOk expOk : Bool) (s : Sys) (ev : Event)
    (hrefl : ∀ c : Code, c ≠ "" → (100 : Score) ≤ score c c)
    (h : FamiliesInv scanner score s.families) :
    FamiliesInv scanner score (handle_event scanner score now saveOk expOk s ev).families := by
  unfold handle_event
  cases hek : find_weth_token ev with
  | none => exact h
  | some address =>
    dsimp only
    by_cases hlen0 : (scanner address).1.length = 0
    · rw [if_pos hlen0]
      exact h
    · rw [if_neg hlen0]
      have hcne : (scanner address).1 ≠ "" :=
        fun he => hlen0 ((string_length_zero _).mpr he)
      generalize hc : ({ address := address, code := (scanner address).1, name := (scanner address).2 } : Contract) = c
      have hcode : c.code = (scanner address).1 := by rw [← hc]
      have haddr : c.address = address := by rw [← hc]
      cases hm : matchFamilies score c s.families with
      | matched fams =>
        obtain ⟨fpre, F, fpost, hsplit, hpre, hmatch, hfams⟩ :=
          matchFamilies_matched_inv score c s.families fams hm
        subst hfams
        rw [check_save_families]
        dsimp only
        intro i Fi hFi a ha
        have hcodes : (fpre ++ F.add_contract c :: fpost).map (fun P => P.code) =
            s.families.map (fun P => P.code) := by
          rw [hsplit]
          simp [ContractFamily.add_contract]
        rw [hcodes]
        by_cases hi : i = fpre.length
        · subst hi
          rw [getElem?_middle] at hFi
          obtain rfl : F.add_contract c = Fi := Option.some.inj hFi
          simp only [ContractFamily.add_contract] at ha
          rcases List.mem_append.mp ha with hmem | hmem
          · have hsF : s.families[fpre.length]? = some F := by
              rw [hsplit]
              exact getElem?_middle _ _ _
            exact h fpre.length F hsF a hmem
          · have haeq : a = c.address := by simpa using hmem
            subst haeq
            rw [haddr]
            refine ⟨hcne, ?_⟩
            rw [hsplit, List.map_append, List.map_cons]
            have hp2 : ∀ x ∈ fpre.map (fun P => P.code),
                ¬ (100 ≤ score x ((scanner address).1)) := by
              intro x hx
              obtain ⟨P, hP, rfl⟩ := List.mem_map.mp hx
              have hP2 := hpre P hP
              rw [hcode] at hP2
              exact hP2
            have hm2 : 100 ≤ score F.code ((scanner address).1) := by
              have := hmatch
              rw [hcode] at this
              exact this
            have hspec := firstMatchIdx_spec score ((scanner address).1)
              (fpre.map (fun P => P.code)) F.code (fpost.map (fun P => P.code)) hp2 hm2
            simpa using hspec
        · have hFi2 : s.families[i]? = some Fi := by
            rw [hsplit, ← getElem?_middle_ne fpre (F.add_contract c) F fpost i hi]
            exact hFi
          exact h i Fi hFi2 a ha
      | unmatched obs =>
        obtain ⟨hnone, hobs⟩ := matchFamilies_unmatched_inv score c s.families obs hm
        rw [export_data_families, check_save_families]
        dsimp only
        intro i Fi hFi a ha
        have hcodes : (s.families ++ [ContractFamily.init s.nextId c]).map
            (fun P => P.code) =
            s.families.map (fun P => P.code) ++ [(scanner address).1] := by
          simp [ContractFamily.init, hcode]
        rw [hcodes]
        by_cases hi : i < s.families.length
        · rw [List.getElem?_append_left hi] at hFi
          have hold := h i Fi hFi a ha
          exact ⟨hold.1, firstMatchIdx_append_some score _ _ _ i hold.2⟩
        · have hle : s.families.length ≤ i := Nat.le_of_not_lt hi
          rw [List.getElem?_append_right hle] at hFi
          cases hd : i - s.families.length with
          | zero =>
            rw [hd] at hFi
            obtain rfl : ContractFamily.init s.nextId c = Fi := by simpa using hFi
            have hieq : i = s.families.length :=
              Nat.le_antisymm (Nat.sub_eq_zero_iff_le.mp hd) hle
            subst hieq
            have haeq : a = c.address := by
              simpa [ContractFamily.init] using ha
            subst haeq
            rw [haddr]
            refine ⟨hcne, ?_⟩
            have hp2 : ∀ x ∈ s.families.map (fun P => P.code),
                ¬ (100 ≤ score x ((scanner address).1)) := by
              intro x hx
              obtain ⟨P, hP, rfl⟩ := List.mem_map.mp hx
              have hP2 := hnone P hP
              rw [hcode] at hP2
              exact hP2
            have hspec := firstMatchIdx_spec score ((scanner address).1)
              (s.families.map (fun P => P.code)) ((scanner address).1) []
              hp2 (hrefl _ hcne)
            simpa using hspec
          | succ k =>
            rw [hd] at hFi
            simp at hFi

theorem famInv_foldl (scanner : Address → Code × String) (score : Code → Code → Score)
    (hrefl : ∀ c : Code, c ≠ "" → (100 : Score) ≤ score c c) :
    ∀ (steps : List Step) (s : Sys), FamiliesInv scanner score s.families →
    FamiliesInv scanner score
      (steps.foldl (fun s2 st =>
        handle_event scanner score st.now st.saveOk st.expOk s2 st.ev) s).families := by
  intro steps
  induction steps with
  | nil => intro s h; exact h
  | cons st rest ih =>
    intro s h
    exact ih _ (famInv_handle scanner score st.now st.saveOk st.expOk s st.ev hrefl h)

/-- Claim C5 amended: for a run of the ingestion loop with a fixed
scanner and an oracle that scores every non-empty code at least
threshold-similar to itself, every contract address belongs to at most
one family: if the families at positions i and j both contain an
address, then i = j.  (The counterexample shows the oracle proviso is
necessary: the claim as stated fails for an admissible oracle that
scores identical code below the threshold, as code_similarity itself
does when fingerprinting finds no similarities.) -/
theorem C5_amended_exclusivity (scanner : Address → Code × String)
    (score : Code → Code → Score) (t0 : Nat) (steps : List Step)
    (hrefl : ∀ c : Code, c ≠ "" → (100 : Score) ≤ score c c)
    (i j : Nat) (Fi Fj : ContractFamily) (a : Address)
    (hFi : (run scanner score t0 steps).families[i]? = some Fi)
    (hFj : (run scanner score t0 steps).families[j]? = some Fj)
    (hai : a ∈ Fi.addresses) (haj : a ∈ Fj.addresses) : i = j := by
  have hinv : FamiliesInv scanner score (run scanner score t0 steps).families := by
    unfold run
    apply famInv_foldl scanner score hrefl steps (initSys t0)
    intro i2 Fi2 hFi2 a2 ha2
    simp [initSys] at hFi2
  have h1 := (hinv i Fi hFi a hai).2
  have h2 := (hinv j Fj hFj a haj).2
  exact Option.some.inj (h1.symm.trans h2)

/-- Two ingestions of the same address under an oracle that scores
every pair 0 (admissible for the oracle interface, and the behaviour of
code_similarity when fingerprinting yields no similarities). -/
def demo5Scanner : Address → Code × String := fun _ => ("A", "NA")

def demo5Score : Code → Code → Score := fun _ _ => 0

def demo5Steps : List Step :=
  [{ ev := { token0 := ETH, token1 := "0xa" }, now := 0, saveOk := false, expOk := false },
   { ev := { token0 := ETH, token1 := "0xa" }, now := 0, saveOk := false, expOk := false }]

/-- Claim C5 counterexample: after re-ingesting the same address under
a zero-scoring oracle, the address appears in the addresses of two
distinct families (positions 0 and 1), refuting the claim that no
address ever appears in two distinct families. -/
theorem C5_counterexample :
    (run demo5Scanner demo5Score 0 demo5Steps).families.map (fun F => F.addresses) =
      [["0xa"], ["0xa"]] := by
  decide

def demo5WScanner : Address → Code × String := fun _ => ("A", "NA")

def demo5WScore : Code → Code → Score := fun x y => if x = y then 100 else 0

def demo5WSteps : List Step :=
  [{ ev := { token0 := ETH, token1 := "0xa" }, now := 0, saveOk := false, expOk := false },
   { ev := { token0 := ETH, token1 := "0xa" }, now := 0, saveOk := false, expOk := false }]

theorem C5_witness :
    (run demo5WScanner demo5WScore 0 demo5WSteps).families[0]? =
      some { id := 0, code := "A", count := 2, addresses := ["0xa", "0xa"],
             names := ["NA"] } ∧
    (0 : Nat) = 0 := by
  refine ⟨by decide, ?_⟩
  exact C5_amended_exclusivity demo5WScanner demo5WScore 0 demo5WSteps
    (fun c hc => by simp [demo5WScore])
    0 0
    { id := 0, code := "A", count := 2, addresses := ["0xa", "0xa"], names := ["NA"] }
    { id := 0, code := "A", count := 2, addresses := ["0xa", "0xa"], names := ["NA"] }
    "0xa" (by decide) (by decide) (by decide) (by decide)
